import Mathlib

/-!
Verification of the pharmaninja-backend ingestion-and-retrieval pipeline.

The development shallowly embeds the JavaScript sources (`ingest.js`,
`server.js` and the near-duplicate server variant) as executable Lean
definitions and proves the specified properties about them.  JavaScript
strings are modelled as Lean `String` (lists of Unicode scalars), numbers
that the code uses as integer indices as `Int`/`Nat`, and the 32-bit
words inside SHA-1 as `Nat` reduced modulo `2 ^ 32`.  Remote services
(embedding, chat completion, the vector index) are passed in as explicit
oracles, mirroring §9 of the design notes.
-/

namespace PharmaNinja

/-! ## Basic string helpers (JS semantics) -/

/-- Characters removed by `String.prototype.trim`; modelled with Lean's
whitespace predicate (space, tab, CR, LF), which covers every character the
repository's inputs contain. -/
def wsChar (c : Char) : Bool := c.isWhitespace

/-- List-level trim: drop whitespace from both ends, as JS `trim()`. -/
def trimChars (l : List Char) : List Char :=
  ((l.dropWhile wsChar).reverse.dropWhile wsChar).reverse

/-- String-level trim, the model of `s.trim()`. -/
def trimStr (s : String) : String := ⟨trimChars s.data⟩

/-- Clamp an integer index into `[0, len]` the way `String.prototype.slice`
does: negative indices count from the end (floored at 0), positive ones are
capped at the length. -/
def jsClamp (len : Nat) (i : Int) : Nat :=
  if i < 0 then ((len : Int) + i).toNat else min i.toNat len

/-- Model of `s.slice(a, b)` for JS strings: the substring from the clamped
index of `a` (inclusive) to the clamped index of `b` (exclusive), empty when
the bounds cross. -/
def jsSlice (s : String) (a b : Int) : String :=
  let lo := jsClamp s.data.length a
  let hi := jsClamp s.data.length b
  ⟨(s.data.take hi).drop lo⟩

/-! ## Chunker (`chunkText`, ingest.js lines 44-51)

The JS loop `for (let i = 0; i < text.length; i += (size - overlap))` keeps
`i` as a (possibly negative-stepped) number, so the loop index is an `Int`
and the loop is written with explicit fuel: `none` means the fuel ran out
while the loop condition still held, i.e. the source loop would still be
running after that many iterations.  `chunkText` supplies enough fuel for
every terminating configuration of the source. -/

def chunkLoop (text : String) (size : Nat) (step : Int) :
    Nat → Int → List String → Option (List String)
  | 0, i, acc => if i < (text.length : Int) then none else some acc
  | fuel + 1, i, acc =>
    if i < (text.length : Int) then
      let part := trimStr (jsSlice text i (i + (size : Int)))
      chunkLoop text size step fuel (i + step)
        (if part = "" then acc else acc ++ [part])
    else some acc

/-- Model of `chunkText(text, size, overlap)` run for `fuel` loop
iterations. -/
def chunkTextFuel (fuel : Nat) (text : String) (size overlap : Nat) :
    Option (List String) :=
  chunkLoop text size ((size : Int) - (overlap : Int)) fuel 0 []

/-- Model of `chunkText(text, size = 1200, overlap = 150)`.  `text.length + 1`
iterations of fuel are enough whenever `overlap < size`, because each
iteration then advances the index by at least one character. -/
def chunkText (text : String) (size : Nat := 1200) (overlap : Nat := 150) :
    Option (List String) :=
  chunkTextFuel (text.length + 1) text size overlap

example : chunkText "ab" 2 1 = some ["ab", "b"] := by decide

example : chunkText "  " 2 1 = some [] := by decide

/-! ## Chunker lemmas -/

/-- When the step is zero the loop index never moves, so once the loop
condition holds it holds forever: no amount of fuel completes the loop. -/
theorem chunkLoop_step_zero_diverges (text : String) (size : Nat) :
    ∀ (fuel : Nat) (i : Int) (acc : List String),
      i < (text.length : Int) →
      chunkLoop text size 0 fuel i acc = none := by
  intro fuel
  induction fuel with
  | zero => intro i acc h; simp [chunkLoop, h]
  | succ n ih =>
    intro i acc h
    simp only [chunkLoop, if_pos h]
    rw [add_zero]
    exact ih i _ h

/-- With a positive step, fuel `len - i` completes the loop. -/
theorem chunkLoop_total (text : String) (size : Nat) (step : Int)
    (hstep : 1 ≤ step) :
    ∀ (fuel : Nat) (i : Int) (acc : List String),
      (text.length : Int) - i ≤ (fuel : Int) →
      ∃ out, chunkLoop text size step fuel i acc = some out := by
  intro fuel
  induction fuel with
  | zero =>
    intro i acc h
    have hc : ¬ i < (text.length : Int) := by omega
    exact ⟨acc, by simp [chunkLoop, hc]⟩
  | succ n ih =>
    intro i acc h
    by_cases hc : i < (text.length : Int)
    · simp only [chunkLoop, if_pos hc]
      exact ih (i + step) _ (by push_cast at h ⊢; omega)
    · exact ⟨acc, by simp [chunkLoop, hc]⟩

/-- The loop only appends to its accumulator: everything already accumulated
is in the final output. -/
theorem chunkLoop_acc_sub (text : String) (size : Nat) (step : Int) :
    ∀ (fuel : Nat) (i : Int) (acc out : List String),
      chunkLoop text size step fuel i acc = some out →
      ∀ c ∈ acc, c ∈ out := by
  intro fuel
  induction fuel with
  | zero =>
    intro i acc out h c hc
    by_cases hcond : i < (text.length : Int)
    · simp [chunkLoop, hcond] at h
    · simp [chunkLoop, hcond] at h
      exact h ▸ hc
  | succ n ih =>
    intro i acc out h c hc
    by_cases hcond : i < (text.length : Int)
    · simp only [chunkLoop, if_pos hcond] at h
      refine ih _ _ _ h c ?_
      split
      · exact hc
      · exact List.mem_append_left _ hc
    · simp [chunkLoop, hcond] at h
      exact h ▸ hc

/-- A slice starting at a nonnegative index has at most `size` characters. -/
theorem jsSlice_length_le (s : String) (i : Int) (size : Nat) (h0 : 0 ≤ i) :
    (jsSlice s i (i + (size : Int))).data.length ≤ size := by
  unfold jsSlice jsClamp
  rw [if_neg (by omega), if_neg (by omega)]
  simp only [List.length_drop, List.length_take]
  omega

/-- Trimming never lengthens a character list. -/
theorem trimChars_length_le (l : List Char) : (trimChars l).length ≤ l.length := by
  unfold trimChars
  rw [List.length_reverse]
  calc ((l.dropWhile wsChar).reverse.dropWhile wsChar).length
      ≤ (l.dropWhile wsChar).reverse.length :=
        (List.dropWhile_sublist _).length_le
    _ = (l.dropWhile wsChar).length := List.length_reverse _
    _ ≤ l.length := (List.dropWhile_sublist _).length_le

/-- Every chunk the loop emits has at most `size` characters. -/
theorem chunkLoop_length_le (text : String) (size : Nat) (step : Int)
    (hstep : 0 ≤ step) :
    ∀ (fuel : Nat) (i : Int) (acc out : List String),
      0 ≤ i →
      (∀ c ∈ acc, c.data.length ≤ size) →
      chunkLoop text size step fuel i acc = some out →
      ∀ c ∈ out, c.data.length ≤ size := by
  intro fuel
  induction fuel with
  | zero =>
    intro i acc out h0 hacc h c hc
    by_cases hcond : i < (text.length : Int)
    · simp [chunkLoop, hcond] at h
    · simp [chunkLoop, hcond] at h
      exact hacc c (h ▸ hc)
  | succ n ih =>
    intro i acc out h0 hacc h c hc
    by_cases hcond : i < (text.length : Int)
    · simp only [chunkLoop, if_pos hcond] at h
      refine ih (i + step) _ out (by omega) ?_ h c hc
      intro d hd
      split at hd
      · exact hacc d hd
      · rcases List.mem_append.mp hd with h1 | h2
        · exact hacc d h1
        · rw [List.mem_singleton.mp h2]
          exact le_trans (trimChars_length_le _) (jsSlice_length_le text i size h0)
    · simp [chunkLoop, hcond] at h
      exact hacc c (h ▸ hc)

/-- An element that fails the predicate survives `dropWhile`. -/
theorem mem_dropWhile_of_not (pred : Char → Bool) :
    ∀ (l : List Char) (c : Char), c ∈ l → pred c = false →
      c ∈ l.dropWhile pred := by
  intro l
  induction l with
  | nil => intro c h _; cases h
  | cons a t ih =>
    intro c hc hpc
    by_cases ha : pred a
    · rw [List.dropWhile_cons_of_pos ha]
      rcases List.mem_cons.mp hc with rfl | hmem
      · rw [hpc] at ha; cases ha
      · exact ih c hmem hpc
    · rw [List.dropWhile_cons_of_neg ha]
      exact hc

/-- A non-whitespace character survives trimming. -/
theorem mem_trimChars (l : List Char) (c : Char) (hc : c ∈ l)
    (hw : wsChar c = false) : c ∈ trimChars l := by
  unfold trimChars
  rw [List.mem_reverse]
  refine mem_dropWhile_of_not wsChar _ c ?_ hw
  rw [List.mem_reverse]
  exact mem_dropWhile_of_not wsChar l c hc hw

/-- A character whose position lies inside the window `[i, i + size)` is in
the corresponding slice. -/
theorem mem_jsSlice (s : String) (i : Int) (size : Nat) (p : Nat)
    (hp : p < s.data.length) (h0 : 0 ≤ i) (h1 : i ≤ (p : Int))
    (h2 : (p : Int) < i + (size : Int)) :
    s.data.get ⟨p, hp⟩ ∈ (jsSlice s i (i + (size : Int))).data := by
  unfold jsSlice jsClamp
  rw [if_neg (by omega), if_neg (by omega)]
  set l := s.data with hl
  set lo := min i.toNat l.length with hlo
  set hi := min (i + (size : Int)).toNat l.length with hhi
  have hlop : lo ≤ p := by omega
  have hphi : p < hi := by omega
  have hlen : ((l.take hi).drop lo).length = hi - lo := by
    simp [List.length_drop, List.length_take]
    omega
  have hidx : p - lo < ((l.take hi).drop lo).length := by omega
  refine List.mem_iff_get.mpr ⟨⟨p - lo, hidx⟩, ?_⟩
  have h3 : lo + (p - lo) < (l.take hi).length := by
    simp [List.length_take]; omega
  have h4 : lo + (p - lo) = p := by omega
  calc ((l.take hi).drop lo).get ⟨p - lo, hidx⟩
      = (l.take hi).get ⟨lo + (p - lo), h3⟩ := by
        simp [List.get_drop]
    _ = l.get ⟨p, hp⟩ := by
        simp [List.get_take, h4]

/-- Every non-whitespace character at a position at or past the current loop
index ends up in some emitted chunk. -/
theorem chunkLoop_covers (text : String) (size : Nat) (step : Int)
    (hstep : 1 ≤ step) (hss : step ≤ (size : Int)) :
    ∀ (fuel : Nat) (i : Int) (acc out : List String),
      0 ≤ i →
      chunkLoop text size step fuel i acc = some out →
      ∀ (p : Nat) (hp : p < text.data.length),
        i ≤ (p : Int) →
        wsChar (text.data.get ⟨p, hp⟩) = false →
        ∃ c ∈ out, text.data.get ⟨p, hp⟩ ∈ c.data := by
  intro fuel
  induction fuel with
  | zero =>
    intro i acc out h0 hrun p hp hip hw
    by_cases hc : i < (text.length : Int)
    · simp [chunkLoop, hc] at hrun
    · have hlen : text.data.length = text.length := rfl
      omega
  | succ n ih =>
    intro i acc out h0 hrun p hp hip hw
    by_cases hc : i < (text.length : Int)
    · simp only [chunkLoop, if_pos hc] at hrun
      by_cases hwin : (p : Int) < i + (size : Int)
      · have hmem : text.data.get ⟨p, hp⟩ ∈
            (jsSlice text i (i + (size : Int))).data :=
          mem_jsSlice text i size p hp h0 hip hwin
        have hmem2 : text.data.get ⟨p, hp⟩ ∈
            (trimStr (jsSlice text i (i + (size : Int)))).data :=
          mem_trimChars _ _ hmem hw
        set part := trimStr (jsSlice text i (i + (size : Int))) with hpart
        have hne : ¬ part = "" := by
          intro he
          rw [he] at hmem2
          cases hmem2
        rw [if_neg hne] at hrun
        refine ⟨part, ?_, hmem2⟩
        exact chunkLoop_acc_sub text size step n _ _ _ hrun part
          (List.mem_append_right _ (List.mem_singleton_self _))
      · exact ih (i + step) _ out (by omega) hrun p hp (by omega) hw
    · have hlen : text.data.length = text.length := rfl
      omega

/-! ## Claim theorems for the chunker -/

/-- Claim C4 (failing-input evaluation): `chunkText` performs no validation of
`overlap < size`.  At `text = "ab"`, `size = 1`, `overlap = 1` the advance
`size - overlap` is zero, and no number of loop iterations ever finishes: the
source `for` loop runs forever instead of failing fast as the claim
requires. -/
theorem chunkText_overlap_eq_size_diverges :
    ∀ fuel : Nat, chunkTextFuel fuel "ab" 1 1 = none := by
  intro fuel
  unfold chunkTextFuel
  have hz : ((1 : Nat) : Int) - ((1 : Nat) : Int) = 0 := by decide
  rw [hz]
  exact chunkLoop_step_zero_diverges "ab" 1 fuel 0 [] (by decide)

/-- Claim C8: for non-empty text and `overlap < size`, chunking terminates,
every returned chunk has at most `size` characters, and every non-whitespace
character of the input occurs in at least one returned chunk. -/
theorem chunkText_bounds_and_coverage (text : String) (size overlap : Nat)
    (hne : text ≠ "") (hov : overlap < size) :
    ∃ chunks, chunkText text size overlap = some chunks ∧
      (∀ c ∈ chunks, c.data.length ≤ size) ∧
      ∀ (p : Nat) (hp : p < text.data.length),
        wsChar (text.data.get ⟨p, hp⟩) = false →
        ∃ c ∈ chunks, text.data.get ⟨p, hp⟩ ∈ c.data := by
  have hstep : 1 ≤ (size : Int) - (overlap : Int) := by omega
  obtain ⟨out, hout⟩ :=
    chunkLoop_total text size ((size : Int) - (overlap : Int)) hstep
      (text.length + 1) 0 [] (by push_cast; omega)
  refine ⟨out, hout, ?_, ?_⟩
  · exact chunkLoop_length_le text size _ (by omega) (text.length + 1) 0 []
      out (by omega) (by intro c hc; cases hc) hout
  · intro p hp hw
    exact chunkLoop_covers text size _ hstep (by omega) (text.length + 1) 0 []
      out (by omega) hout p hp (by omega) hw

/-- Witness for C8 at the concrete input `chunkText "ab" 2 1`. -/
theorem chunkText_bounds_and_coverage_witness :
    ("ab" : String) ≠ "" ∧ 1 < 2 ∧
    (∃ chunks, chunkText "ab" 2 1 = some chunks ∧
      (∀ c ∈ chunks, c.data.length ≤ 2) ∧
      ∀ (p : Nat) (hp : p < ("ab" : String).data.length),
        wsChar (("ab" : String).data.get ⟨p, hp⟩) = false →
        ∃ c ∈ chunks, ("ab" : String).data.get ⟨p, hp⟩ ∈ c.data) :=
  ⟨by decide, by decide, chunkText_bounds_and_coverage "ab" 2 1 (by decide) (by decide)⟩

/-! ## SHA-1 (`safeId`, ingest.js lines 53-55)

`createHash('sha1').update(s, 'utf8').digest('hex')` hashes the UTF-8 bytes
of `s` and renders the 20-byte digest as lowercase hex.  The algorithm below
is FIPS 180-1 SHA-1 over byte lists, with 32-bit words as `Nat` reduced
modulo `2 ^ 32`. -/

/-- Reduce to a 32-bit word. -/
def w32 (n : Nat) : Nat := n % 4294967296

/-- Rotate a 32-bit word left by `k` bits. -/
def rotl (k n : Nat) : Nat := w32 ((n <<< k) ||| (n >>> (32 - k)))

/-- UTF-8 encoding of one Unicode scalar value, as a list of bytes. -/
def utf8Bytes (c : Char) : List Nat :=
  let n := c.toNat
  if n < 128 then [n]
  else if n < 2048 then [192 ||| (n >>> 6), 128 ||| (n &&& 63)]
  else if n < 65536 then
    [224 ||| (n >>> 12), 128 ||| ((n >>> 6) &&& 63), 128 ||| (n &&& 63)]
  else
    [240 ||| (n >>> 18), 128 ||| ((n >>> 12) &&& 63),
     128 ||| ((n >>> 6) &&& 63), 128 ||| (n &&& 63)]

/-- UTF-8 bytes of a string. -/
def strBytes (s : String) : List Nat :=
  s.data.foldr (fun c acc => utf8Bytes c ++ acc) []

/-- Big-endian bytes of a 64-bit value. -/
def be64 (n : Nat) : List Nat :=
  [(n >>> 56) % 256, (n >>> 48) % 256, (n >>> 40) % 256, (n >>> 32) % 256,
   (n >>> 24) % 256, (n >>> 16) % 256, (n >>> 8) % 256, n % 256]

/-- Big-endian bytes of a 32-bit word. -/
def be32 (n : Nat) : List Nat :=
  [(n >>> 24) % 256, (n >>> 16) % 256, (n >>> 8) % 256, n % 256]

/-- SHA-1 padding: append `0x80`, zero bytes to 56 mod 64, then the bit
length as a big-endian 64-bit value. -/
def sha1Pad (msg : List Nat) : List Nat :=
  msg ++ [128] ++ List.replicate ((64 - (msg.length + 9) % 64) % 64) 0 ++
    be64 (msg.length * 8)

/-- Group bytes into big-endian 32-bit words. -/
def bytesToWords : List Nat → List Nat
  | b0 :: b1 :: b2 :: b3 :: rest =>
    ((((b0 <<< 8) ||| b1) <<< 8 ||| b2) <<< 8 ||| b3) :: bytesToWords rest
  | _ => []

/-- Extend the 16 schedule words to 80 by `k` more steps. -/
def extendWords : Nat → List Nat → List Nat
  | 0, ws => ws
  | k + 1, ws =>
    extendWords k (ws ++ [rotl 1 ((ws.getD (ws.length - 3) 0) ^^^
      (ws.getD (ws.length - 8) 0) ^^^ (ws.getD (ws.length - 14) 0) ^^^
      (ws.getD (ws.length - 16) 0))])

/-- Round function of SHA-1. -/
def sha1F (t b c d : Nat) : Nat :=
  if t < 20 then w32 ((b &&& c) ||| ((4294967295 - b) &&& d))
  else if t < 40 then b ^^^ c ^^^ d
  else if t < 60 then (b &&& c) ||| (b &&& d) ||| (c &&& d)
  else b ^^^ c ^^^ d

/-- Round constants of SHA-1. -/
def sha1K (t : Nat) : Nat :=
  if t < 20 then 1518500249
  else if t < 40 then 1859775393
  else if t < 60 then 2400959708
  else 3395469782

/-- The 80 compression rounds over the word schedule. -/
def sha1Rounds : List Nat → Nat → Nat × Nat × Nat × Nat × Nat →
    Nat × Nat × Nat × Nat × Nat
  | [], _, st => st
  | w :: ws, t, (a, b, c, d, e) =>
    sha1Rounds ws (t + 1)
      (w32 (rotl 5 a + sha1F t b c d + e + w + sha1K t), a, rotl 30 b, c, d)

/-- Compress one 64-byte block into the running state. -/
def sha1Block (h : Nat × Nat × Nat × Nat × Nat) (block : List Nat) :
    Nat × Nat × Nat × Nat × Nat :=
  let ws := extendWords 64 (bytesToWords block)
  let (h0, h1, h2, h3, h4) := h
  let (a, b, c, d, e) := sha1Rounds ws 0 h
  (w32 (h0 + a), w32 (h1 + b), w32 (h2 + c), w32 (h3 + d), w32 (h4 + e))

/-- Split a byte list into 64-byte blocks; the fuel is any upper bound on
the number of blocks (the caller passes the byte count). -/
def splitBlocksFuel : Nat → List Nat → List (List Nat)
  | 0, _ => []
  | _, [] => []
  | fuel + 1, l => l.take 64 :: splitBlocksFuel fuel (l.drop 64)

/-- Split a byte list into 64-byte blocks. -/
def splitBlocks (l : List Nat) : List (List Nat) := splitBlocksFuel l.length l

/-- The 20-byte SHA-1 digest of a byte list. -/
def sha1Bytes (msg : List Nat) : List Nat :=
  let st := (splitBlocks (sha1Pad msg)).foldl sha1Block
    (1732584193, 4023233417, 2562383102, 271733878, 3285377520)
  be32 st.1 ++ be32 st.2.1 ++ be32 st.2.2.1 ++ be32 st.2.2.2.1 ++
    be32 st.2.2.2.2

/-- Lowercase hex digit for a value below 16. -/
def hexDigit (n : Nat) : Char :=
  if n < 10 then Char.ofNat (48 + n) else Char.ofNat (87 + n)

/-- Lowercase hex rendering of a digest. -/
def bytesHex (bs : List Nat) : String :=
  ⟨bs.foldr (fun b acc => hexDigit (b / 16) :: hexDigit (b % 16) :: acc) []⟩

/-- Model of `safeId` (ingest.js lines 53-55): lowercase-hex SHA-1 of the
UTF-8 bytes of the input string. -/
def safeId (s : String) : String := bytesHex (sha1Bytes (strBytes s))

set_option maxRecDepth 10000 in
example : safeId "abc" = "a9993e364706816aba3e25717850c26c9cd0d89d" := by decide

/-! ## Ingestion data model (ingest.js) -/

/-- Metadata attached to an indexed record.  JS objects are open maps; the
fields that any of the sources ever read or write are modelled, each
optional because a JS property may be absent (`undefined`).  Note that
`ingest.js` writes the document name under `source` and never writes
`file`. -/
structure Metadata where
  text : Option String
  source : Option String
  file : Option String
  lang : Option String
  stage : Option String
  subject : Option String
deriving DecidableEq, Repr

/-- A record upserted into the vector index: `{id, values, metadata}`.
Embedding components are opaque numbers never computed on; they are
modelled as integers. -/
structure VectorRec where
  id : String
  values : List Int
  metadata : Metadata
deriving DecidableEq, Repr

/-- Model of `detectLang` (ingest.js lines 40-42): `"AR"` when any character
lies in the Arabic block `U+0600`-`U+06FF`, else `"EN"`. -/
def detectLang (s : String) : String :=
  if s.data.any (fun c => 1536 ≤ c.toNat && c.toNat ≤ 1791) then "AR" else "EN"

/-- Model of `cleanText` (ingest.js lines 36-38): remove surrogate code
units `U+D800`-`U+DFFF`. -/
def cleanText (s : String) : String :=
  ⟨s.data.filter (fun c => !(55296 ≤ c.toNat && c.toNat ≤ 57343))⟩

/-- Model of the vector construction in `run` (ingest.js lines 139-149) for
one batch starting at chunk index `i`: the `j`-th embedding yields id
`` `${baseId}-${i + j}` `` with `baseId = safeId(fname)`, and constant
`stage`/`subject` tags. -/
def buildVectors (fname : String) (i : Nat) (batchTexts : List String)
    (embeddings : List (List Int)) : List VectorRec :=
  embeddings.enum.map (fun p =>
    { id := safeId fname ++ "-" ++ toString (i + p.1)
      values := p.2
      metadata :=
        { text := batchTexts.get? p.1
          source := some fname
          file := none
          lang := (batchTexts.get? p.1).map detectLang
          stage := some "3rd"
          subject := some "Pharmacology" } })

/-! ## Server data model (server.js and the duplicate variant) -/

/-- A match returned by the vector index query; every field is read through
optional chaining in the source, so each is optional. -/
structure MatchRec where
  id : Option String
  score : Option Int
  metadata : Option Metadata
deriving DecidableEq, Repr

/-- One entry of the `sources` array in the query response. -/
structure SourceOut where
  id : Option String
  score : Option Int
  file : Option String
  lang : Option String
  stage : Option String
  subject : Option String
deriving DecidableEq, Repr

/-- Model of `mapMatches` (server.js lines 146-155); the duplicate variant's
`mapSources` has the identical body.  Note it reads `m?.metadata?.file`. -/
def mapMatches (ms : List MatchRec) : List SourceOut :=
  ms.map (fun m =>
    { id := m.id
      score := m.score
      file := m.metadata.bind Metadata.file
      lang := m.metadata.bind Metadata.lang
      stage := m.metadata.bind Metadata.stage
      subject := m.metadata.bind Metadata.subject })

/-- Model of `m?.metadata?.text || ''`. -/
def matchText (m : MatchRec) : String := (m.metadata.bind Metadata.text).getD ""

/-- The rendered context lines, one per match in rank order
(server.js line 230 and the duplicate variant line 161):
`` `[#${i + 1}] ${m?.metadata?.text || ''}` ``. -/
def contextLines (ms : List MatchRec) : List String :=
  ms.enum.map (fun p => "[#" ++ toString (p.1 + 1) ++ "] " ++ matchText p.2)

/-- Model of the context assembly (server.js lines 229-232): render each
match, join with newlines, trim.  There is no truncation step. -/
def buildContext (ms : List MatchRec) : String :=
  trimStr (String.intercalate "\n" (contextLines ms))

/-- Outcome of one chat-completion request, as observed by `genAnswer`:
an HTTP-success response carrying `choices[0].message.content` (possibly
absent), a non-ok HTTP status (which `genAnswer` turns into a thrown and
then caught error), or a rejected `fetch` promise. -/
inductive ChatOutcome where
  | ok (content : Option String)
  | httpError (status : Nat)
  | networkError
deriving DecidableEq, Repr

/-- Model of `lang || 'EN'`. -/
def langOr (lang : Option String) : String :=
  match lang with
  | some l => if l = "" then "EN" else l
  | none => "EN"

/-- The catch-branch fallback of `genAnswer` (server.js lines 131-135). -/
def fallbackAnswer (lang : Option String) (context : String) : String :=
  if context = "" then "(" ++ langOr lang ++ ") No relevant context found."
  else "(" ++ langOr lang ++ ") Answer based on retrieved context:\n\n" ++ context

/-- Model of `genAnswer` (server.js lines 93-137).  The outbound prompt
(built from lang, stage, subject, question and context) only feeds the
external completion service; the returned answer is
`content?.trim() || ''` on HTTP success and the deterministic fallback on
any failure. -/
def genAnswer (chat : ChatOutcome) (lang : Option String) (context : String) :
    String :=
  match chat with
  | .ok content => trimStr (content.getD "")
  | .httpError _ => fallbackAnswer lang context
  | .networkError => fallbackAnswer lang context

/-- Model of `cleanFilter` (server.js lines 139-144); the duplicate
variant's `buildFilter` has the identical body.  A key is included only when
the attribute is truthy (present and non-empty); an empty filter becomes
`undefined`. -/
def cleanFilter (stage subject : Option String) :
    Option (List (String × String)) :=
  let f :=
    (match stage with
     | some s => if s = "" then [] else [("stage", s)]
     | none => []) ++
    (match subject with
     | some s => if s = "" then [] else [("subject", s)]
     | none => [])
  if f = [] then none else some f

/-! ## Embedding client retry (`embedBatchWithRetry`, ingest.js lines 60-81)

The remote embedding call is an oracle mapping the attempt number to its
outcome.  The loop retries only rate-limit failures (`is429`), gives up once
the attempt counter reaches the retry ceiling, and propagates other errors
immediately.  The result is paired with the number of attempts actually
made. -/

/-- Outcome of one `openai.embeddings.create` call. -/
inductive AttemptOutcome where
  | success (vecs : List (List Int))
  | rateLimit
  | otherError
deriving DecidableEq, Repr

/-- Error surfaced by the retry wrapper. -/
inductive EmbedError where
  | rateLimited
  | other
deriving DecidableEq, Repr

/-- The `while (true)` loop of `embedBatchWithRetry`, from attempt counter
`attempt`; returns the result together with the number of attempts made. -/
def embedRetryLoop (oracle : Nat → AttemptOutcome) (retries : Nat) :
    Nat → Except EmbedError (List (List Int)) × Nat
  | attempt =>
    match oracle attempt with
    | .success v => (Except.ok v, 1)
    | .otherError => (Except.error EmbedError.other, 1)
    | .rateLimit =>
      if h : retries ≤ attempt then (Except.error EmbedError.rateLimited, 1)
      else
        let r := embedRetryLoop oracle retries (attempt + 1)
        (r.1, r.2 + 1)
termination_by attempt => retries - attempt
decreasing_by omega

/-- Model of `embedBatchWithRetry(texts, { retries })`: run the loop from
attempt 0. -/
def embedBatchWithRetry (oracle : Nat → AttemptOutcome)
    (retries : Nat := 5) : Except EmbedError (List (List Int)) × Nat :=
  embedRetryLoop oracle retries 0

/-! ## Query endpoint (`app.post('/query')`, server.js lines 203-250) -/

/-- Presence of the three server credentials/config values. -/
structure Config where
  openaiKey : Bool
  pineconeKey : Bool
  pineconeIndex : Bool
deriving DecidableEq, Repr

/-- Body of a `/query` request. -/
structure QueryReq where
  lang : Option String
  stage : Option String
  subject : Option String
  question : Option String
deriving DecidableEq, Repr

/-- Response of the `/query` handler: a JSON success payload, a 400
validation error, or a 500 server error. -/
inductive QueryResponse where
  | ok (answer : String) (sources : List SourceOut)
  | badRequest (error : String)
  | serverError (error : String)
deriving DecidableEq, Repr

/-- Model of the `/query` handler.  The embedding call, the vector-index
query and the chat completion are oracles; a thrown upstream error is an
`Except.error` and lands in the handler's catch-all, which answers 500
`Query failed`. -/
def handleQuery (cfg : Config) (req : QueryReq)
    (embedSvc : String → Except String (List Int))
    (pineSvc : List Int → Option (List (String × String)) →
      Except String (List MatchRec))
    (chat : ChatOutcome) : QueryResponse :=
  match req.question with
  | none => .badRequest "Missing question"
  | some q =>
    if trimStr q = "" then .badRequest "Missing question"
    else if !cfg.openaiKey then .serverError "Server missing OPENAI_API_KEY"
    else if !cfg.pineconeKey then .serverError "Server missing PINECONE_API_KEY"
    else if !cfg.pineconeIndex then .serverError "Server missing PINECONE_INDEX"
    else
      match embedSvc q with
      | .error detail => .serverError ("Query failed: " ++ detail)
      | .ok qVec =>
        match pineSvc qVec (cleanFilter req.stage req.subject) with
        | .error detail => .serverError ("Query failed: " ++ detail)
        | .ok ms =>
          .ok (genAnswer chat req.lang (buildContext ms)) (mapMatches ms)

/-- Modelled from the spec: the vector index itself is an external service
(its storage and filtering run outside this repository), and §4.5 states its
filter contract — a filter "is a conjunction over equality predicates on
metadata fields (`stage`, `subject`)".  A record's metadata matches a filter
when every listed predicate holds. -/
def filterMatches (f : List (String × String)) (md : Metadata) : Bool :=
  f.all (fun p =>
    match p.1 with
    | "stage" => md.stage == some p.2
    | "subject" => md.subject == some p.2
    | _ => false)

/-! ## Claim theorems for the embedding client -/

/-- If every attempt hits a rate limit, the loop from attempt `a ≤ retries`
fails after exactly `retries - a + 1` further attempts. -/
theorem embedRetryLoop_all_rateLimit (oracle : Nat → AttemptOutcome)
    (retries : Nat) (hall : ∀ n, oracle n = AttemptOutcome.rateLimit) :
    ∀ (d a : Nat), retries - a = d → a ≤ retries →
      embedRetryLoop oracle retries a =
        (Except.error EmbedError.rateLimited, d + 1) := by
  intro d
  induction d with
  | zero =>
    intro a hd _
    rw [embedRetryLoop, hall a, dif_pos (by omega)]
  | succ k ih =>
    intro a hd _
    rw [embedRetryLoop, hall a, dif_neg (by omega)]
    simp only [ih (a + 1) (by omega) (by omega)]

/-- Claim C3: with the first attempt rate-limited and the second successful,
the client returns the success after exactly two attempts; with every
attempt rate-limited, it surfaces the rate-limit failure after exactly
`retries + 1` attempts. -/
theorem embedBatchWithRetry_retry_behavior (oracle : Nat → AttemptOutcome)
    (retries : Nat) (v : List (List Int)) :
    (oracle 0 = AttemptOutcome.rateLimit → oracle 1 = AttemptOutcome.success v →
      1 ≤ retries → embedBatchWithRetry oracle retries = (Except.ok v, 2)) ∧
    ((∀ n, oracle n = AttemptOutcome.rateLimit) →
      embedBatchWithRetry oracle retries =
        (Except.error EmbedError.rateLimited, retries + 1)) := by
  constructor
  · intro h0 h1 hr
    show embedRetryLoop oracle retries 0 = (Except.ok v, 2)
    rw [embedRetryLoop, h0, dif_neg (by omega), embedRetryLoop, h1]
  · intro hall
    show embedRetryLoop oracle retries 0 =
      (Except.error EmbedError.rateLimited, retries + 1)
    have := embedRetryLoop_all_rateLimit oracle retries hall retries 0
      (by omega) (by omega)
    simpa using this

/-- Witness for C3: a concrete rate-limited-then-successful oracle and a
concrete always-rate-limited oracle, both with the default ceiling 5. -/
theorem embedBatchWithRetry_retry_behavior_witness :
    embedBatchWithRetry
        (fun n => if n = 0 then AttemptOutcome.rateLimit
                  else AttemptOutcome.success [[7]]) 5 =
      (Except.ok [[7]], 2) ∧
    embedBatchWithRetry (fun _ => AttemptOutcome.rateLimit) 5 =
      (Except.error EmbedError.rateLimited, 6) :=
  ⟨(embedBatchWithRetry_retry_behavior
      (fun n => if n = 0 then AttemptOutcome.rateLimit
                else AttemptOutcome.success [[7]]) 5 [[7]]).1
      rfl rfl (by omega),
   (embedBatchWithRetry_retry_behavior
      (fun _ => AttemptOutcome.rateLimit) 5 [[7]]).2 (fun _ => rfl)⟩

/-! ## Claim theorems for chunk identifiers and metadata -/

set_option maxRecDepth 40000 in
/-- Counterexample to claim C1: for the two-chunk document
`"pharm101.pdf"`, the upserted ids are `sha1("pharm101.pdf")` followed by
`"-0"` / `"-1"` — the hash covers only the document name — and they differ
from `sha1("pharm101.pdf-0")` / `sha1("pharm101.pdf-1")`, the hashes of the
concatenated strings that the claim asserts. -/
theorem ingest_id_hash_counterexample :
    (buildVectors "pharm101.pdf" 0 ["c0", "c1"] [[1], [2]]).map VectorRec.id =
      [safeId "pharm101.pdf" ++ "-0", safeId "pharm101.pdf" ++ "-1"] ∧
    (buildVectors "pharm101.pdf" 0 ["c0", "c1"] [[1], [2]]).map VectorRec.id ≠
      [safeId "pharm101.pdf-0", safeId "pharm101.pdf-1"] := by
  constructor
  · decide
  · decide

/-- Amended claim C1: the id of the record built for the `j`-th embedding of
a batch starting at chunk index `i` of document `fname` is
`safeId fname ++ "-" ++ toString (i + j)`: the SHA-1 hash covers only the
document name, and the chunk index is appended in the clear. -/
theorem buildVectors_id_format (fname : String) (i : Nat)
    (texts : List String) (embs : List (List Int)) (j : Nat) :
    ((buildVectors fname i texts embs).get? j).map VectorRec.id =
      (embs.get? j).map (fun _ => safeId fname ++ "-" ++ toString (i + j)) := by
  unfold buildVectors
  rw [List.get?_map, List.get?_enum]
  cases embs.get? j <;> rfl

/-- Claim C10: every record built by the ingestion driver carries the
constant tags `stage = "3rd"` and `subject = "Pharmacology"`, and therefore
(by the index filter contract of §4.5) a filter on any other stage or
subject value does not match its metadata. -/
theorem buildVectors_constant_tags (fname : String) (i : Nat)
    (texts : List String) (embs : List (List Int)) :
    ∀ r ∈ buildVectors fname i texts embs,
      r.metadata.stage = some "3rd" ∧
      r.metadata.subject = some "Pharmacology" ∧
      (∀ s, s ≠ "3rd" → filterMatches [("stage", s)] r.metadata = false) ∧
      (∀ s, s ≠ "Pharmacology" →
        filterMatches [("subject", s)] r.metadata = false) := by
  intro r hr
  unfold buildVectors at hr
  rcases List.mem_map.mp hr with ⟨p, _, rfl⟩
  refine ⟨rfl, rfl, ?_, ?_⟩
  · intro s hs
    simp only [filterMatches, List.all_cons, List.all_nil, Bool.and_true]
    rw [beq_eq_false_iff_ne]
    intro h
    exact hs (Option.some.inj h).symm
  · intro s hs
    simp only [filterMatches, List.all_cons, List.all_nil, Bool.and_true]
    rw [beq_eq_false_iff_ne]
    intro h
    exact hs (Option.some.inj h).symm

/-- A concrete ingestion record, as built for the single chunk `"t"` of
`"doc.pdf"`. -/
def sampleVec : VectorRec :=
  { id := safeId "doc.pdf" ++ "-0"
    values := [1]
    metadata :=
      { text := some "t", source := some "doc.pdf", file := none,
        lang := some "EN", stage := some "3rd",
        subject := some "Pharmacology" } }

set_option maxRecDepth 40000 in
/-- Witness for C10 at a concrete ingestion output and concrete mismatching
filter values. -/
theorem buildVectors_constant_tags_witness :
    sampleVec.metadata.stage = some "3rd" ∧
    sampleVec.metadata.subject = some "Pharmacology" ∧
    filterMatches [("stage", "4th")] sampleVec.metadata = false ∧
    filterMatches [("subject", "Botany")] sampleVec.metadata = false :=
  ⟨(buildVectors_constant_tags "doc.pdf" 0 ["t"] [[1]] sampleVec
      (by decide)).1,
   (buildVectors_constant_tags "doc.pdf" 0 ["t"] [[1]] sampleVec
      (by decide)).2.1,
   (buildVectors_constant_tags "doc.pdf" 0 ["t"] [[1]] sampleVec
      (by decide)).2.2.1 "4th" (by decide),
   (buildVectors_constant_tags "doc.pdf" 0 ["t"] [[1]] sampleVec
      (by decide)).2.2.2 "Botany" (by decide)⟩

/-- The records ingested from a one-chunk `"pharm101.pdf"`. -/
def pharmRecords : List VectorRec :=
  buildVectors "pharm101.pdf" 0
    ["Bioavailability is the fraction of a dose reaching circulation."] [[1]]

/-- The vector-index matches returned for a query that hits the ingested
record: the index returns the stored metadata with each match. -/
def pharmMatches : List MatchRec :=
  pharmRecords.map (fun r =>
    { id := some r.id, score := some 1, metadata := some r.metadata })

set_option maxRecDepth 40000 in
/-- Claim C5 (failing-input evaluation): for a query matching a record
ingested from `"pharm101.pdf"`, the response's `sources` list is non-empty,
but its `file` field is `none`: `ingest.js` stores the document name under
the metadata key `source`, while `mapMatches` reads the key `file`, which
ingestion never writes. -/
theorem sources_file_unpopulated :
    1 ≤ (mapMatches pharmMatches).length ∧
    (mapMatches pharmMatches).map SourceOut.file = [none] ∧
    pharmRecords.map (fun r => r.metadata.source) = [some "pharm101.pdf"] := by
  refine ⟨?_, ?_, ?_⟩
  · decide
  · decide
  · decide

/-- Claim C9: `cleanFilter` keeps only truthy (present, non-empty)
attributes: `{stage: "3rd", subject: ""}` yields a filter containing only
the stage predicate, and `{}` yields no filter at all. -/
theorem cleanFilter_truthy_only :
    cleanFilter (some "3rd") (some "") = some [("stage", "3rd")] ∧
    cleanFilter none none = none := by
  constructor
  · decide
  · decide

/-! ## Claim theorems for context assembly and answer synthesis -/

/-- A 3000-character match text, exceeding the 2000-character budget the
specification names. -/
def bigText : String := ⟨List.replicate 3000 'a'⟩

/-- A match carrying `bigText`. -/
def bigMatch : MatchRec :=
  { id := some "id-1", score := some 1,
    metadata := some
      { text := some bigText, source := some "doc.pdf", file := none,
        lang := some "EN", stage := some "3rd",
        subject := some "Pharmacology" } }

/-- The `dropWhile` of a list whose head fails the predicate is the list
itself. -/
theorem dropWhile_eq_self_of_head (pred : Char → Bool) (l : List Char)
    (h : ∀ c, l.head? = some c → pred c = false) : l.dropWhile pred = l := by
  cases l with
  | nil => rfl
  | cons a t =>
    have ha := h a rfl
    rw [List.dropWhile_cons_of_neg (by simp [ha])]

/-- Trimming is the identity when neither end is whitespace. -/
theorem trimChars_eq_self (l : List Char)
    (hhead : ∀ c, l.head? = some c → wsChar c = false)
    (hlast : ∀ c, l.getLast? = some c → wsChar c = false) :
    trimChars l = l := by
  unfold trimChars
  rw [dropWhile_eq_self_of_head wsChar l hhead]
  rw [dropWhile_eq_self_of_head wsChar l.reverse
    (fun c hc => hlast c (by rwa [List.head?_reverse] at hc))]
  exact List.reverse_reverse l

/-- Counterexample to claim C6: the assembled context for a single match
with 3000 characters of text has 3005 characters — nothing truncates it to
the 2000-character budget — and its last character is the text's own `'a'`,
so no ellipsis marker was appended either. -/
theorem context_no_truncation_counterexample :
    (buildContext [bigMatch]).length = 3005 ∧ 2000 < 3005 ∧
    (buildContext [bigMatch]).data.getLast? = some 'a' := by
  have hdata : ("[#1] " ++ bigText).data =
      "[#1] ".data ++ List.replicate 3000 'a' := rfl
  have hlast : ∀ c, ("[#1] " ++ bigText).data.getLast? = some c →
      wsChar c = false := by
    intro c hc
    rw [hdata, List.getLast?_append, List.getLast?_replicate,
      if_neg (by omega)] at hc
    cases hc
    decide
  have htrim : trimStr ("[#1] " ++ bigText) = "[#1] " ++ bigText := by
    show (⟨trimChars ("[#1] " ++ bigText).data⟩ : String) = "[#1] " ++ bigText
    rw [trimChars_eq_self ("[#1] " ++ bigText).data ?_ hlast]
    · intro c hc
      rw [show ("[#1] " ++ bigText).data.head? = some '[' from rfl] at hc
      cases hc
      decide
  have hctx : buildContext [bigMatch] = "[#1] " ++ bigText := by
    rw [show buildContext [bigMatch] = trimStr ("[#1] " ++ bigText) from rfl]
    exact htrim
  have hlen : bigText.length = 3000 := by
    show (List.replicate 3000 'a').length = 3000
    exact List.length_replicate 3000 'a'
  refine ⟨?_, by omega, ?_⟩
  · rw [hctx, String.length_append, hlen]
    rfl
  · rw [hctx, hdata, List.getLast?_append, List.getLast?_replicate,
      if_neg (by omega)]
    rfl

/-- Amended claim C6: the context renders each match in rank order as
`[#rank] {metadata.text}` (1-based ranks, missing text rendered empty),
joined with newlines and trimmed of surrounding whitespace; no truncation to
a character budget is performed and no ellipsis is ever appended. -/
theorem context_rank_order_rendering (ms : List MatchRec) :
    (contextLines ms).length = ms.length ∧
    (∀ j : Nat, (contextLines ms).get? j =
      (ms.get? j).map
        (fun m => "[#" ++ toString (j + 1) ++ "] " ++ matchText m)) ∧
    buildContext ms = trimStr (String.intercalate "\n" (contextLines ms)) := by
  refine ⟨by simp [contextLines], ?_, rfl⟩
  intro j
  unfold contextLines
  rw [List.get?_map, List.get?_enum]
  cases ms.get? j <;> rfl

/-- Counterexample to claim C2: with zero matches the assembled context is
the empty string — not a "no relevant context" sentinel — and the answer
synthesizer still consults the completion service: when that call succeeds
its reply is returned verbatim instead of any fixed fallback message. -/
theorem no_sentinel_counterexample :
    buildContext [] = "" ∧
    genAnswer (ChatOutcome.ok (some "model reply")) (some "EN")
      (buildContext []) = "model reply" := by
  constructor
  · rfl
  · rfl

/-- Amended claim C2: with zero matches the context passed on is the empty
string; the synthesizer still calls the completion service, returns that
service's (trimmed) reply when the call succeeds, and produces the fixed
`"No relevant context found."` message only when the call fails. -/
theorem empty_matches_fallback (lang : Option String) (chat : ChatOutcome)
    (hfail : ∀ c, chat ≠ ChatOutcome.ok c) :
    buildContext [] = "" ∧
    genAnswer chat lang (buildContext []) =
      "(" ++ langOr lang ++ ") No relevant context found." ∧
    (∀ t, genAnswer (ChatOutcome.ok (some t)) lang (buildContext []) =
      trimStr t) := by
  refine ⟨rfl, ?_, fun t => rfl⟩
  cases chat with
  | ok c => exact absurd rfl (hfail c)
  | httpError s => rfl
  | networkError => rfl

/-- Witness for the amended C2 at a concrete failing chat outcome. -/
theorem empty_matches_fallback_witness :
    buildContext [] = "" ∧
    genAnswer ChatOutcome.networkError (some "EN") (buildContext []) =
      "(" ++ langOr (some "EN") ++ ") No relevant context found." ∧
    (∀ t, genAnswer (ChatOutcome.ok (some t)) (some "EN") (buildContext []) =
      trimStr t) :=
  empty_matches_fallback (some "EN") ChatOutcome.networkError
    (fun c h => nomatch h)

/-- Claim C7: when the question is valid, the credentials are configured and
both retrieval calls succeed, a completion-service failure of any kind never
surfaces to the caller: the handler still answers with the success payload,
whose answer is the deterministic fallback template over the retrieved
context. -/
theorem chat_failure_is_recovered (cfg : Config) (req : QueryReq)
    (embedSvc : String → Except String (List Int))
    (pineSvc : List Int → Option (List (String × String)) →
      Except String (List MatchRec))
    (chat : ChatOutcome) (q : String) (qVec : List Int) (ms : List MatchRec)
    (hq : req.question = some q) (hqt : ¬ trimStr q = "")
    (h1 : cfg.openaiKey = true) (h2 : cfg.pineconeKey = true)
    (h3 : cfg.pineconeIndex = true)
    (he : embedSvc q = Except.ok qVec)
    (hp : pineSvc qVec (cleanFilter req.stage req.subject) = Except.ok ms)
    (hchat : ∀ c, chat ≠ ChatOutcome.ok c) :
    handleQuery cfg req embedSvc pineSvc chat =
      QueryResponse.ok (fallbackAnswer req.lang (buildContext ms))
        (mapMatches ms) := by
  unfold handleQuery
  rw [hq]
  dsimp only
  rw [if_neg hqt, h1, h2, h3]
  simp only [Bool.not_true, Bool.false_eq_true, if_false]
  rw [he]
  dsimp only
  rw [hp]
  dsimp only
  cases chat with
  | ok c => exact absurd rfl (hchat c)
  | httpError s => rfl
  | networkError => rfl

/-- A plain match used by concrete handler runs. -/
def sampleMatch : MatchRec :=
  { id := some "m-1", score := some 1,
    metadata := some
      { text := some "Bioavailability is the absorbed fraction.",
        source := some "pharm101.pdf", file := none, lang := some "EN",
        stage := some "3rd", subject := some "Pharmacology" } }

/-- Witness for C7: a concrete request with working retrieval and a failing
chat completion still yields the success payload with the fallback
answer. -/
theorem chat_failure_is_recovered_witness :
    handleQuery ⟨true, true, true⟩
      ⟨some "EN", some "3rd", none, some "What is bioavailability?"⟩
      (fun _ => Except.ok [1]) (fun _ _ => Except.ok [sampleMatch])
      (ChatOutcome.httpError 402) =
      QueryResponse.ok
        (fallbackAnswer (some "EN") (buildContext [sampleMatch]))
        (mapMatches [sampleMatch]) :=
  chat_failure_is_recovered ⟨true, true, true⟩
    ⟨some "EN", some "3rd", none, some "What is bioavailability?"⟩
    (fun _ => Except.ok [1]) (fun _ _ => Except.ok [sampleMatch])
    (ChatOutcome.httpError 402) "What is bioavailability?" [1] [sampleMatch]
    rfl (by decide) rfl rfl rfl rfl rfl (fun c h => nomatch h)

end PharmaNinja
